import Mathlib

/-!
Shallow embedding of the Flow Free rule engine (`game.py`) and proofs about
its specified properties.

The Python module stores the board as a list of lists of `_Tile` objects;
tiles reference each other through the `next` attribute (object identity).
Since every tile object is owned by exactly one grid slot, object references
are modelled as canonical `(row, column)` positions.  Python list indexing
(including negative-index wraparound and `IndexError` on out-of-range
indices) is modelled by `pyIdx`.  The one unbounded `while` loop of
`remove_line` clears a colored tile at each iteration, so running it with
fuel `coloredCount + 1` computes the same result as the unbounded loop;
`line_end` can genuinely diverge on a cyclic board, which is modelled by a
`none` result at fuel exhaustion with fuel `dimension² + 1` (more steps than
tiles would force a revisit, hence an infinite loop in Python).
-/

namespace FlowFree

abbrev Color := String

/-- Raw coordinates as supplied by a caller (Python ints). -/
abbrev Pos := Int × Int

/-- Canonical grid coordinates (indices into the lists). -/
abbrev Coord := Nat × Nat

/-- `_Tile`: `is_dot`, `color`, `next` (reference to the next tile in line,
modelled as the canonical position of that tile). -/
structure Tile where
  is_dot : Bool
  color : Option Color
  next : Option Coord
deriving DecidableEq

/-- `_Tile()` with default attributes. -/
def Tile.empty : Tile := ⟨false, none, none⟩

/-- Python truthiness of a tile's `color` field (`None` and `""` are falsy). -/
def truthy : Option Color → Bool
  | none => false
  | some s => s != ""

/-- `Dot`: a dot with raw integer coordinates and a color string. -/
structure Dot where
  x : Int
  y : Int
  color : Color
deriving DecidableEq

abbrev Grid := List (List Tile)

/-- `GameInstance`: dimension, board and dot list. -/
structure GameInstance where
  dimension : Nat
  board : Grid
  dots : List Dot
deriving DecidableEq

/-- Python list indexing: `l[i]` resolves to position `i` for `0 ≤ i < n`,
wraps to `n + i` for `-n ≤ i < 0`, and raises `IndexError` otherwise. -/
def pyIdx (n : Nat) (i : Int) : Option Nat :=
  if 0 ≤ i ∧ i < (n : Int) then some i.toNat
  else if -(n : Int) ≤ i ∧ i < 0 then some (i + (n : Int)).toNat
  else none

/-- In-place update of one list element (no-op when out of range). -/
def listModify (l : List α) (k : Nat) (f : α → α) : List α :=
  match l[k]? with
  | some a => l.set k (f a)
  | none => l

/-- Read the tile at a canonical position. -/
def getB (b : Grid) (c : Coord) : Option Tile :=
  match b[c.1]? with
  | some row => row[c.2]?
  | none => none

/-- Mutate the tile at a canonical position. -/
def modifyB (b : Grid) (c : Coord) (f : Tile → Tile) : Grid :=
  listModify b c.1 (fun row => listModify row c.2 f)

/-- `board[p.1][p.2]` with Python index semantics: the canonical position the
indices resolve to together with the tile stored there, or `none` for an
`IndexError`. -/
def pyResolveGrid (b : Grid) (p : Pos) : Option (Coord × Tile) :=
  match pyIdx b.length p.1 with
  | none => none
  | some i =>
    match b[i]? with
    | none => none
    | some row =>
      match pyIdx row.length p.2 with
      | none => none
      | some j =>
        match row[j]? with
        | none => none
        | some t => some ((i, j), t)

def pyResolveT (g : GameInstance) (p : Pos) : Option (Coord × Tile) :=
  pyResolveGrid g.board p

def getTile (g : GameInstance) (p : Pos) : Option Tile :=
  (pyResolveT g p).map (·.2)

def modifyG (g : GameInstance) (c : Coord) (f : Tile → Tile) : GameInstance :=
  { g with board := modifyB g.board c f }

/-! ## Board construction (`GameInstance.__init__`, `valid_dots`) -/

inductive ConstructErr
  | indexError
  | dupDot
  | invalidBoard
  | typeError
deriving DecidableEq

/-- `_Tile(is_dot=True, color=dot.color)`. -/
def dotTile (d : Dot) : Tile := ⟨true, some d.color, none⟩

/-- The dot-placing loop of `__init__`: raises on an out-of-range dot
position (`IndexError`) or a second dot on one tile (`ValueError`). -/
def placeDots : Grid → List Dot → Except ConstructErr Grid
  | b, [] => .ok b
  | b, d :: rest =>
    match pyResolveGrid b (d.x, d.y) with
    | none => .error .indexError
    | some (c, t) =>
      if t.is_dot then .error .dupDot
      else placeDots (modifyB b c (fun _ => dotTile d)) rest

def addColor (acc : List Color) (c : Color) : List Color :=
  if c ∈ acc then acc else acc ++ [c]

/-- The distinct colors of the dot list, in first-occurrence order
(the keys of `dot_dict`). -/
def distinctColors (dots : List Dot) : List Color :=
  dots.foldl (fun acc d => addColor acc d.color) []

/-- How many dots of a given color the list holds (a `dot_dict` value). -/
def countColor (dots : List Dot) (c : Color) : Nat :=
  dots.countP (fun d => d.color == c)

/-- `valid_dots`: every color must occur exactly twice.  `reduce` without an
initial value raises `TypeError` on an empty dot list. -/
def valid_dots (dots : List Dot) : Except ConstructErr Bool :=
  match distinctColors dots with
  | [] => .error .typeError
  | c :: cs => .ok ((c :: cs).all (fun c₀ => countColor dots c₀ == 2))

def emptyGrid (n : Nat) : Grid := List.replicate n (List.replicate n Tile.empty)

/-- `GameInstance(dimension, dots)`. -/
def GameInstance.construct (n : Nat) (dots : List Dot) : Except ConstructErr GameInstance :=
  match placeDots (emptyGrid n) dots with
  | .error e => .error e
  | .ok b =>
    match valid_dots dots with
    | .error e => .error e
    | .ok true => .ok ⟨n, b, dots⟩
    | .ok false => .error .invalidBoard

/-! ## `remove_line` -/

/-- Clear a tile's color and link, as one iteration of the `while` loop of
`remove_line` does. -/
def clearTile (t : Tile) : Tile := { t with color := none, next := none }

/-- Number of colored non-dot tiles; each iteration of the removal loop
clears one, which bounds the iteration count. -/
def coloredCount (b : Grid) : Nat :=
  (b.map (fun row => row.countP (fun t => truthy t.color && !t.is_dot))).sum

/-- The `while current_tile and current_tile.color and not current_tile.is_dot`
loop of `remove_line`.  With fuel above `coloredCount b` the fuel never runs
out, so this computes exactly what the unbounded Python loop does. -/
def removeLoopF : Nat → Grid → Option Coord → Grid
  | 0, b, _ => b
  | _ + 1, b, none => b
  | fuel + 1, b, some p =>
    match getB b p with
    | none => b
    | some t =>
      if truthy t.color && !t.is_dot then
        removeLoopF fuel (modifyB b p clearTile) t.next
      else b

/-- `remove_line(origin)`: `none` models the `IndexError` raised by the
initial `self.board[origin[0]][origin[1]]` fetch. -/
def remove_line (g : GameInstance) (origin : Pos) : Option GameInstance :=
  match pyResolveT g origin with
  | none => none
  | some (c, t) =>
    if t.is_dot then
      let b1 := modifyB g.board c (fun u => { u with next := none })
      some { g with board := removeLoopF (coloredCount b1 + 1) b1 t.next }
    else
      some { g with board := removeLoopF (coloredCount g.board + 1) g.board (some c) }

/-! ## `color_tile` and `_previous` -/

inductive MoveErr
  | indexErr
  | drawOnDot
  | notLineEnd
  | notOnLine
  | notAdjacent
  | sameDotLoop
  | noneTypeErr
deriving DecidableEq

def inBoundsB (n : Nat) (p : Pos) : Bool :=
  decide (0 ≤ p.1 ∧ p.1 < (n : Int) ∧ 0 ≤ p.2 ∧ p.2 < (n : Int))

def manhattan (p q : Pos) : Nat :=
  (q.1 - p.1).natAbs + (q.2 - p.2).natAbs

/-- `_previous(coord)`: the first in-bounds 4-neighbour whose `next`
reference is the tile at `coord`. -/
def _previous (g : GameInstance) (coord : Pos) : Option Pos :=
  let candidates : List Pos :=
    [(coord.1 - 1, coord.2), (coord.1 + 1, coord.2),
     (coord.1, coord.2 - 1), (coord.1, coord.2 + 1)]
  (candidates.filter (fun c => inBoundsB g.dimension c)).find?
    (fun c =>
      match getTile g c, pyResolveT g coord with
      | some ct, some (cc, _) => ct.next == some cc
      | _, _ => false)

/-- The `other_dot` scan: the last dot in the list at a different position
with the color of the previous tile (`None` when no dot matches). -/
def otherDot (dots : List Dot) (previous : Pos) (pcolor : Option Color) : Option Dot :=
  dots.foldl
    (fun acc d =>
      if (d.x ≠ previous.1 ∨ d.y ≠ previous.2) ∧ some d.color = pcolor then some d else acc)
    none

/-- The new-line step of `color_tile`: when `previousPos` is a dot, discard
the line of the paired dot of the same color.  `otherDot = None` makes the
subsequent subscript raise `TypeError`; an out-of-range paired dot would
raise `IndexError` inside `remove_line`. -/
def colorStep1 (g : GameInstance) (previous : Pos) (previous_tile : Tile) :
    Except MoveErr GameInstance :=
  if previous_tile.is_dot = true then
    match otherDot g.dots previous previous_tile.color with
    | none => .error .noneTypeErr
    | some d =>
      match remove_line g (d.x, d.y) with
      | none => .error .indexErr
      | some g1 => .ok g1
  else .ok g

/-- The overwrite step of `color_tile`: when the (re-read) current tile is
colored and not a dot, remove the line it belongs to starting at
`_previous(current)`; `_previous = None` makes the subscript inside
`remove_line` raise `TypeError`. -/
def colorStep2 (g1 : GameInstance) (current : Pos) (ct1 : Tile) :
    Except MoveErr GameInstance :=
  if truthy ct1.color = true ∧ ct1.is_dot = false then
    match _previous g1 current with
    | none => .error .noneTypeErr
    | some cand =>
      match remove_line g1 cand with
      | none => .error .indexErr
      | some g2 => .ok g2
  else .ok g1

/-- `color_tile(previous, current)`.  The first component is the raised
exception, if any (`noneTypeErr` models the `TypeError` of subscripting
`None`); the second is the game state when the call returns or escapes,
since checks after the internal truncation fire with the board already
mutated. -/
def color_tile (g : GameInstance) (previous current : Pos) : Option MoveErr × GameInstance :=
  match pyResolveT g previous, pyResolveT g current with
  | some (pc, previous_tile), some (cc, current_tile) =>
    if ¬ (inBoundsB g.dimension previous = true ∧ inBoundsB g.dimension current = true) then
      (some .indexErr, g)
    else if current_tile.is_dot = true ∧ previous_tile.color ≠ current_tile.color then
      (some .drawOnDot, g)
    else if previous_tile.next.isSome = true then
      (some .notLineEnd, g)
    else if truthy previous_tile.color = false then
      (some .notOnLine, g)
    else if manhattan previous current ≠ 1 then
      (some .notAdjacent, g)
    else
      match colorStep1 g previous previous_tile with
      | .error e => (some e, g)
      | .ok g1 =>
        match getB g1.board cc with
        | none => (some .indexErr, g1)
        | some ct1 =>
          if ct1.is_dot = true ∧ ct1.next.isSome = true then
            (some .sameDotLoop, g1)
          else
            match colorStep2 g1 current ct1 with
            | .error e => (some e, g1)
            | .ok g2 =>
              match getB g2.board pc with
              | none => (some .indexErr, g2)
              | some pt2 =>
                (none,
                  modifyG (modifyG g2 pc (fun u => { u with next := some cc })) cc
                    (fun u => { u with color := pt2.color }))
  | _, _ => (some .indexErr, g)

/-! ## `game_won` and `line_end` -/

def allColored (b : Grid) : Bool :=
  b.all fun row => row.all fun t => truthy t.color

/-- `line_end`: follow `next` links to the terminus.  `none` at fuel
exhaustion; with fuel `dimension² + 1` that only happens when the chain
revisits a tile, i.e. when the Python loop diverges. -/
def lineEnd (b : Grid) : Nat → Coord → Option Coord
  | 0, _ => none
  | fuel + 1, p =>
    match getB b p with
    | none => some p
    | some t =>
      match t.next with
      | none => some p
      | some q => lineEnd b fuel q

/-- The second dot loop of `game_won`, carrying the set of colors without a
confirmed line.  `none` models abnormal termination (an `IndexError` on a
dot fetch or a diverging `line_end`). -/
def wonLoop (g : GameInstance) : List Dot → List Color → Option Bool
  | [], colors => some colors.isEmpty
  | d :: rest, colors =>
    match pyResolveT g (d.x, d.y) with
    | none => none
    | some (c, t) =>
      if d.color ∈ colors then
        match t.next with
        | none => wonLoop g rest colors
        | some _ =>
          match lineEnd g.board (g.dimension * g.dimension + 1) c with
          | none => none
          | some e =>
            match getB g.board e with
            | none => none
            | some et => if et.is_dot then wonLoop g rest (colors.erase d.color) else some false
      else wonLoop g rest colors

/-- `game_won()`. -/
def game_won (g : GameInstance) : Option Bool :=
  if allColored g.board then wonLoop g g.dots (distinctColors g.dots) else some false

/-! ## Shape and move sequencing helpers -/

/-- The board is an `n × n` list of lists, `n` the stored dimension. -/
def shapeOk (g : GameInstance) : Bool :=
  (g.board.length == g.dimension) && g.board.all (fun row => row.length == g.dimension)

/-- Apply a sequence of `color_tile` moves, stopping at the first error. -/
def applyMoves (g : GameInstance) : List (Pos × Pos) → Option MoveErr × GameInstance
  | [] => (none, g)
  | m :: rest =>
    match color_tile g m.1 m.2 with
    | (none, g1) => applyMoves g1 rest
    | (some e, g1) => (some e, g1)

/-! ## Concrete boards and move sequences used as test inputs -/

/-- The dot layout of the repository's own test suite. -/
def vdots : List Dot := [⟨1, 1, "blue"⟩, ⟨2, 2, "red"⟩, ⟨3, 3, "blue"⟩, ⟨0, 0, "red"⟩]

/-- The 5×5 game built from `vdots`. -/
def vg : GameInstance :=
  match GameInstance.construct 5 vdots with
  | .ok g => g
  | .error _ => ⟨0, [], []⟩

/-- Draw blue `(1,1)→(1,2)→(1,3)`, then red `(2,2)→(2,3)` and overwrite the
blue cell `(1,3)`, whose old-path predecessor `(1,2)` is not an endpoint. -/
def c1moves : List (Pos × Pos) :=
  [((1, 1), (1, 2)), ((1, 2), (1, 3)), ((2, 2), (2, 3)), ((2, 3), (1, 3))]

/-- The game state after `c1moves`. -/
def c1state : Option MoveErr × GameInstance := applyMoves vg c1moves

/-- The game state after extending the blue path by one cell from `vg`. -/
def vg1 : GameInstance := (color_tile vg (1, 1) (1, 2)).2

/-- `vg1` extended once more, to `(1,3)`. -/
def vg2 : GameInstance := (color_tile vg1 (1, 2) (1, 3)).2

/-- Dots for the successor-cycle run: the drawing region `(1,1)..(2,3)`
holds only the blue origin dot. -/
def dots9 : List Dot := [⟨1, 1, "b"⟩, ⟨4, 4, "b"⟩, ⟨0, 0, "r"⟩, ⟨0, 4, "r"⟩]

/-- The 5×5 game built from `dots9`. -/
def vg9 : GameInstance :=
  match GameInstance.construct 5 dots9 with
  | .ok g => g
  | .error _ => ⟨0, [], []⟩

/-- Seven successful moves: drawing back onto the path's own predecessor
(move 3) leaves `(2,2)` uncolored with a stale `next` into `(1,2)`;
re-drawing through the region (moves 4-7) then closes a successor cycle
`(2,2)→(1,2)→(1,3)→(2,3)→(2,2)`. -/
def c9moves : List (Pos × Pos) :=
  [((1, 1), (1, 2)), ((1, 2), (2, 2)), ((2, 2), (1, 2)), ((1, 1), (1, 2)),
   ((1, 2), (1, 3)), ((1, 3), (2, 3)), ((2, 3), (2, 2))]

/-- The game state after `c9moves`. -/
def c9state : Option MoveErr × GameInstance := applyMoves vg9 c9moves

/-- A fully colored 2×2 board: one color "a", a complete path
`(0,0)→(0,1)→(1,1)→(1,0)` between the dots at `(0,0)` and `(1,0)`. -/
def g7board : Grid :=
  [[⟨true, some "a", some (0, 1)⟩, ⟨false, some "a", some (1, 1)⟩],
   [⟨true, some "a", none⟩, ⟨false, some "a", some (1, 0)⟩]]

/-- The won board with the successor-free dot `(1,0)` listed first. -/
def g7 : GameInstance := ⟨2, g7board, [⟨1, 0, "a"⟩, ⟨0, 0, "a"⟩]⟩

/-- The same board with the dots listed in the other order. -/
def g7r : GameInstance := ⟨2, g7board, [⟨0, 0, "a"⟩, ⟨1, 0, "a"⟩]⟩

/-- Two same-color dots on adjacent cells of a 3×3 board. -/
def dots5 : List Dot := [⟨0, 0, "a"⟩, ⟨0, 1, "a"⟩]

/-- The 3×3 game built from `dots5`. -/
def vg5 : GameInstance :=
  match GameInstance.construct 3 dots5 with
  | .ok g => g
  | .error _ => ⟨0, [], []⟩

/-- `vg5` with a path started from the dot at `(0,1)`: the dot at `(0,1)`
now has a successor, and its paired dot `(0,0)` is adjacent to it. -/
def vg5b : GameInstance := (color_tile vg5 (0, 1) (0, 2)).2

/-- The grid is an `n × n` list of lists (propositional form of `shapeOk`). -/
def gridShape (n : Nat) (b : Grid) : Prop :=
  b.length = n ∧ ∀ row ∈ b, row.length = n

/-! ## Lemmas on the list primitives -/

theorem set_getElem?_self (l : List α) (k : Nat) (a : α) (h : l[k]? = some a) :
    l.set k a = l := by
  apply List.ext_getElem?
  intro n
  by_cases hn : k = n
  · subst hn
    rw [List.getElem?_set_self (List.getElem?_eq_some_iff.mp h).1, h]
  · rw [List.getElem?_set_ne hn]

theorem listModify_getElem_self (l : List α) (k : Nat) (f : α → α) :
    (listModify l k f)[k]? = (l[k]?).map f := by
  unfold listModify
  cases h : l[k]? with
  | none => simp [h]
  | some a => simp [List.getElem?_set_self (List.getElem?_eq_some_iff.mp h).1]

theorem listModify_getElem_ne (l : List α) (k j : Nat) (f : α → α) (h : k ≠ j) :
    (listModify l k f)[j]? = l[j]? := by
  unfold listModify
  cases hk : l[k]? with
  | none => rfl
  | some a => simp [List.getElem?_set_ne h]

theorem listModify_length (l : List α) (k : Nat) (f : α → α) :
    (listModify l k f).length = l.length := by
  unfold listModify
  cases l[k]? <;> simp

theorem listModify_id (l : List α) (k : Nat) (f : α → α)
    (h : ∀ a, l[k]? = some a → f a = a) : listModify l k f = l := by
  unfold listModify
  cases hk : l[k]? with
  | none => rfl
  | some a =>
    show l.set k (f a) = l
    rw [h a hk]
    exact set_getElem?_self l k a hk

theorem listModify_comp (l : List α) (k : Nat) (f g : α → α) :
    listModify (listModify l k f) k g = listModify l k (fun a => g (f a)) := by
  unfold listModify
  cases hk : l[k]? with
  | none => simp [hk]
  | some a =>
    simp only [hk, List.getElem?_set_self (List.getElem?_eq_some_iff.mp hk).1, List.set_set]

theorem getB_modifyB (b : Grid) (q p : Coord) (f : Tile → Tile) :
    getB (modifyB b q f) p = if p = q then (getB b q).map f else getB b p := by
  rcases p with ⟨p1, p2⟩
  rcases q with ⟨q1, q2⟩
  unfold getB modifyB
  by_cases h1 : p1 = q1
  · subst h1
    rw [listModify_getElem_self]
    cases hrow : b[p1]? with
    | none => simp
    | some row =>
      show (listModify row q2 f)[p2]? = _
      by_cases h2 : p2 = q2
      · subst h2
        rw [listModify_getElem_self]
        simp
      · rw [listModify_getElem_ne _ _ _ _ (Ne.symm h2)]
        simp [Prod.ext_iff, h2]
  · rw [listModify_getElem_ne _ _ _ _ (Ne.symm h1)]
    simp [Prod.ext_iff, h1]

theorem modifyB_modifyB_self (b : Grid) (q : Coord) (f g : Tile → Tile) :
    modifyB (modifyB b q f) q g = modifyB b q (fun t => g (f t)) := by
  unfold modifyB
  rw [listModify_comp]
  congr 1
  funext row
  rw [listModify_comp]

theorem modifyB_id (b : Grid) (q : Coord) (f : Tile → Tile)
    (h : ∀ t, getB b q = some t → f t = t) : modifyB b q f = b := by
  unfold modifyB
  apply listModify_id
  intro row hrow
  apply listModify_id
  intro t ht
  apply h
  unfold getB
  rw [hrow]
  exact ht

theorem gridShape_modifyB (n : Nat) (b : Grid) (q : Coord) (f : Tile → Tile)
    (hs : gridShape n b) : gridShape n (modifyB b q f) := by
  obtain ⟨hlen, hrows⟩ := hs
  constructor
  · unfold modifyB; rw [listModify_length, hlen]
  · intro row hrow
    unfold modifyB listModify at hrow
    revert hrow
    cases hq : b[q.1]? with
    | none => intro hrow; exact hrows row hrow
    | some row0 =>
      intro hrow
      rcases List.mem_or_eq_of_mem_set hrow with h | h
      · exact hrows row h
      · subst h
        show (listModify row0 q.2 f).length = n
        rw [listModify_length]
        exact hrows row0 (List.getElem?_mem hq)

/-! ## pyIdx lemmas -/

theorem pyIdx_of_nonneg (n : Nat) (i : Int) (h0 : 0 ≤ i) (h1 : i < (n : Int)) :
    pyIdx n i = some i.toNat := by
  unfold pyIdx
  rw [if_pos ⟨h0, h1⟩]

theorem pyIdx_range (n : Nat) (i : Int) (h0 : -(n : Int) ≤ i) (h1 : i < (n : Int)) :
    ∃ k, pyIdx n i = some k ∧ k < n := by
  unfold pyIdx
  split_ifs with h2 h3
  · exact ⟨i.toNat, rfl, by omega⟩
  · exact ⟨(i + n).toNat, rfl, by omega⟩
  · omega

theorem pyIdx_some_lt (n : Nat) (i : Int) (k : Nat) (h : pyIdx n i = some k) : k < n := by
  unfold pyIdx at h
  split_ifs at h with h1 h2 <;> simp only [Option.some.injEq] at h <;> omega

theorem pyIdx_emod (n : Nat) (i : Int) (h0 : -(n : Int) ≤ i)
    (h1 : i < (n : Int)) : pyIdx n (i % (n : Int)) = pyIdx n i := by
  rcases le_or_lt 0 i with hpos | hneg
  · rw [Int.emod_eq_of_lt hpos h1]
  · have hmod : i % (n : Int) = i + n := by
      have h2 : (i + (n : Int)) % (n : Int) = i % (n : Int) := by
        have h4 := Int.add_mul_emod_self_left i (n : Int) 1
        rwa [mul_one] at h4
      have h3 : (i + (n : Int)) % (n : Int) = i + n := Int.emod_eq_of_lt (by omega) (by omega)
      omega
    rw [hmod]
    unfold pyIdx
    rw [if_pos ⟨by omega, by omega⟩, if_neg (by omega), if_pos ⟨h0, hneg⟩]

/-! ## Resolution lemmas -/

theorem shapeOk_iff (g : GameInstance) :
    shapeOk g = true ↔ gridShape g.dimension g.board := by
  unfold shapeOk gridShape
  simp [List.all_eq_true]

theorem inBoundsB_iff (n : Nat) (p : Pos) :
    inBoundsB n p = true ↔ 0 ≤ p.1 ∧ p.1 < (n : Int) ∧ 0 ≤ p.2 ∧ p.2 < (n : Int) := by
  unfold inBoundsB
  exact decide_eq_true_iff

theorem getB_some_of_lt (n : Nat) (b : Grid) (c : Coord) (hs : gridShape n b)
    (h1 : c.1 < n) (h2 : c.2 < n) : ∃ t, getB b c = some t := by
  obtain ⟨hlen, hrows⟩ := hs
  have hc1 : c.1 < b.length := by omega
  unfold getB
  rw [List.getElem?_eq_getElem hc1]
  have hrl : b[c.1].length = n := hrows _ (List.getElem_mem hc1)
  have hc2 : c.2 < b[c.1].length := by omega
  exact ⟨b[c.1][c.2], List.getElem?_eq_getElem hc2⟩

theorem pyResolveGrid_inBounds (n : Nat) (b : Grid) (p : Pos) (hs : gridShape n b)
    (hb : inBoundsB n p = true) :
    ∃ t, pyResolveGrid b p = some ((p.1.toNat, p.2.toNat), t) ∧
      getB b (p.1.toNat, p.2.toNat) = some t := by
  obtain ⟨h1, h2, h3, h4⟩ := (inBoundsB_iff n p).mp hb
  obtain ⟨hlen, hrows⟩ := hs
  have hc1 : p.1.toNat < b.length := by omega
  have hrl : b[p.1.toNat].length = n := hrows _ (List.getElem_mem hc1)
  have hc2 : p.2.toNat < b[p.1.toNat].length := by omega
  refine ⟨b[p.1.toNat][p.2.toNat], ?_, ?_⟩
  · simp only [pyResolveGrid, hlen, pyIdx_of_nonneg n p.1 h1 h2,
      List.getElem?_eq_getElem hc1, hrl, pyIdx_of_nonneg n p.2 h3 h4,
      List.getElem?_eq_getElem hc2]
  · simp only [getB, List.getElem?_eq_getElem hc1, List.getElem?_eq_getElem hc2]

theorem pyResolveGrid_range (n : Nat) (b : Grid) (p : Pos) (hs : gridShape n b)
    (hx0 : -(n : Int) ≤ p.1) (hx1 : p.1 < (n : Int))
    (hy0 : -(n : Int) ≤ p.2) (hy1 : p.2 < (n : Int)) :
    ∃ c t, pyResolveGrid b p = some (c, t) ∧ c.1 < n ∧ c.2 < n ∧
      getB b c = some t := by
  obtain ⟨hlen, hrows⟩ := hs
  obtain ⟨i, hi, hilt⟩ := pyIdx_range n p.1 hx0 hx1
  have hc1 : i < b.length := by omega
  have hrl : b[i].length = n := hrows _ (List.getElem_mem hc1)
  obtain ⟨j, hj, hjlt⟩ := pyIdx_range n p.2 hy0 hy1
  have hc2 : j < b[i].length := by omega
  refine ⟨(i, j), b[i][j], ?_, hilt, hjlt, ?_⟩
  · simp only [pyResolveGrid, hlen, hi, List.getElem?_eq_getElem hc1, hrl, hj,
      List.getElem?_eq_getElem hc2]
  · simp only [getB, List.getElem?_eq_getElem hc1, List.getElem?_eq_getElem hc2]

theorem pyResolveGrid_some_lt (n : Nat) (b : Grid) (p : Pos) (c : Coord) (t : Tile)
    (hs : gridShape n b) (h : pyResolveGrid b p = some (c, t)) :
    c.1 < n ∧ c.2 < n ∧ getB b c = some t := by
  obtain ⟨hlen, hrows⟩ := hs
  unfold pyResolveGrid at h
  cases hi : pyIdx b.length p.1 with
  | none => simp [hi] at h
  | some i =>
    simp only [hi] at h
    cases hrow : b[i]? with
    | none => simp [hrow] at h
    | some row =>
      simp only [hrow] at h
      cases hj : pyIdx row.length p.2 with
      | none => simp [hj] at h
      | some j =>
        simp only [hj] at h
        cases ht : row[j]? with
        | none => simp [ht] at h
        | some t0 =>
          simp only [ht, Option.some.injEq, Prod.mk.injEq] at h
          obtain ⟨hc, hct⟩ := h
          subst hc
          subst hct
          have hilt : i < b.length := pyIdx_some_lt _ _ _ hi
          have hrl : row.length = n := hrows _ (List.getElem?_mem hrow)
          refine ⟨by omega, by rw [← hrl]; exact pyIdx_some_lt _ _ _ hj, ?_⟩
          simp only [getB, hrow, ht]

/-! ## removeLoopF lemmas -/

theorem removeLoopF_none (fuel : Nat) (b : Grid) : removeLoopF fuel b none = b := by
  cases fuel <;> rfl

theorem removeLoopF_keeps (fuel : Nat) (b : Grid) (pos : Option Coord) (p : Coord) (t : Tile)
    (ht : getB b p = some t) (hkeep : t.is_dot = true ∨ truthy t.color = false) :
    getB (removeLoopF fuel b pos) p = some t := by
  induction fuel generalizing b pos with
  | zero => exact ht
  | succ fuel ih =>
    cases pos with
    | none => exact ht
    | some q =>
      show getB (match getB b q with
        | none => b
        | some tq =>
          if truthy tq.color && !tq.is_dot then
            removeLoopF fuel (modifyB b q clearTile) tq.next
          else b) p = some t
      cases hq : getB b q with
      | none => exact ht
      | some tq =>
        show getB (if truthy tq.color && !tq.is_dot then
            removeLoopF fuel (modifyB b q clearTile) tq.next
          else b) p = some t
        by_cases hcond : truthy tq.color && !tq.is_dot
        · rw [if_pos hcond]
          have hpq : p ≠ q := by
            intro hEq
            subst hEq
            rw [ht] at hq
            injection hq with hq
            subst hq
            simp only [Bool.and_eq_true, Bool.not_eq_eq_eq_not, Bool.not_true] at hcond
            rcases hkeep with h | h
            · rw [h] at hcond; simp at hcond
            · rw [h] at hcond; simp at hcond
          apply ih
          rw [getB_modifyB, if_neg hpq]
          exact ht
        · rw [if_neg hcond]
          exact ht

theorem gridShape_removeLoopF (n : Nat) (fuel : Nat) (b : Grid) (pos : Option Coord)
    (hs : gridShape n b) : gridShape n (removeLoopF fuel b pos) := by
  induction fuel generalizing b pos with
  | zero => exact hs
  | succ fuel ih =>
    cases pos with
    | none => exact hs
    | some q =>
      show gridShape n (match getB b q with
        | none => b
        | some tq =>
          if truthy tq.color && !tq.is_dot then
            removeLoopF fuel (modifyB b q clearTile) tq.next
          else b)
      cases getB b q with
      | none => exact hs
      | some tq =>
        show gridShape n (if truthy tq.color && !tq.is_dot then
            removeLoopF fuel (modifyB b q clearTile) tq.next
          else b)
        by_cases hcond : truthy tq.color && !tq.is_dot
        · rw [if_pos hcond]
          exact ih _ _ (gridShape_modifyB n b q clearTile hs)
        · rw [if_neg hcond]
          exact hs

/-! ## remove_line lemmas -/

theorem remove_line_some (g : GameInstance) (origin : Pos) (hs : shapeOk g = true)
    (hx0 : -(g.dimension : Int) ≤ origin.1) (hx1 : origin.1 < (g.dimension : Int))
    (hy0 : -(g.dimension : Int) ≤ origin.2) (hy1 : origin.2 < (g.dimension : Int)) :
    ∃ g', remove_line g origin = some g' ∧ g'.dimension = g.dimension ∧
      g'.dots = g.dots ∧ gridShape g.dimension g'.board := by
  have hgs := (shapeOk_iff g).mp hs
  obtain ⟨c, t, hres, _, _, _⟩ :=
    pyResolveGrid_range g.dimension g.board origin hgs hx0 hx1 hy0 hy1
  unfold remove_line pyResolveT
  simp only [hres]
  by_cases hd : t.is_dot = true
  · rw [if_pos hd]
    exact ⟨_, rfl, rfl, rfl,
      gridShape_removeLoopF _ _ _ _ (gridShape_modifyB _ _ _ _ hgs)⟩
  · rw [if_neg hd]
    exact ⟨_, rfl, rfl, rfl, gridShape_removeLoopF _ _ _ _ hgs⟩

theorem remove_line_shape (g g' : GameInstance) (origin : Pos)
    (hs : gridShape g.dimension g.board) (h : remove_line g origin = some g') :
    g'.dimension = g.dimension ∧ g'.dots = g.dots ∧ gridShape g.dimension g'.board := by
  unfold remove_line pyResolveT at h
  cases hres : pyResolveGrid g.board origin with
  | none => simp [hres] at h
  | some ct =>
    obtain ⟨c, t⟩ := ct
    simp only [hres] at h
    by_cases hd : t.is_dot = true
    · rw [if_pos hd] at h
      injection h with h
      subst h
      exact ⟨rfl, rfl, gridShape_removeLoopF _ _ _ _ (gridShape_modifyB _ _ _ _ hs)⟩
    · rw [if_neg hd] at h
      injection h with h
      subst h
      exact ⟨rfl, rfl, gridShape_removeLoopF _ _ _ _ hs⟩

theorem pyResolveGrid_emod (n : Nat) (b : Grid) (x y : Int) (hs : gridShape n b)
    (hx0 : -(n : Int) ≤ x) (hx1 : x < (n : Int))
    (hy0 : -(n : Int) ≤ y) (hy1 : y < (n : Int)) :
    pyResolveGrid b (x % (n : Int), y % (n : Int)) = pyResolveGrid b (x, y) := by
  obtain ⟨hlen, hrows⟩ := hs
  unfold pyResolveGrid
  simp only [hlen]
  rw [pyIdx_emod n x hx0 hx1]
  cases hi : pyIdx n x with
  | none => simp only [hi]
  | some i =>
    simp only [hi]
    cases hrow : b[i]? with
    | none => simp only [hrow]
    | some row =>
      simp only [hrow]
      have hrl : row.length = n := hrows _ (List.getElem?_mem hrow)
      rw [hrl, pyIdx_emod n y hy0 hy1]

/-! ## Lemmas about the steps of color_tile -/

theorem _previous_inBounds (g : GameInstance) (coord cand : Pos)
    (h : _previous g coord = some cand) : inBoundsB g.dimension cand = true := by
  unfold _previous at h
  exact (List.mem_filter.mp (List.mem_of_find?_eq_some h)).2

theorem colorStep1_ok (g g1 : GameInstance) (previous : Pos) (pt : Tile)
    (h : colorStep1 g previous pt = .ok g1) :
    g1 = g ∨ ∃ q, remove_line g q = some g1 := by
  unfold colorStep1 at h
  by_cases hd : pt.is_dot = true
  · rw [if_pos hd] at h
    cases hod : otherDot g.dots previous pt.color with
    | none => simp [hod] at h
    | some d =>
      simp only [hod] at h
      cases hrem : remove_line g (d.x, d.y) with
      | none => simp [hrem] at h
      | some g1' =>
        simp only [hrem] at h
        injection h with h
        exact Or.inr ⟨(d.x, d.y), by rw [hrem, h]⟩
  · rw [if_neg hd] at h
    injection h with h
    exact Or.inl h.symm

theorem colorStep1_shape (g g1 : GameInstance) (previous : Pos) (pt : Tile)
    (hs : gridShape g.dimension g.board)
    (h : colorStep1 g previous pt = .ok g1) :
    g1.dimension = g.dimension ∧ g1.dots = g.dots ∧ gridShape g.dimension g1.board := by
  rcases colorStep1_ok g g1 previous pt h with h1 | ⟨q, h1⟩
  · subst h1; exact ⟨rfl, rfl, hs⟩
  · exact remove_line_shape g g1 q hs h1

theorem colorStep2_okCases (g1 g2 : GameInstance) (current : Pos) (ct1 : Tile)
    (h : colorStep2 g1 current ct1 = .ok g2) :
    g2 = g1 ∨ ∃ q, remove_line g1 q = some g2 := by
  unfold colorStep2 at h
  by_cases hc : truthy ct1.color = true ∧ ct1.is_dot = false
  · rw [if_pos hc] at h
    cases hprev : _previous g1 current with
    | none => simp [hprev] at h
    | some cand =>
      simp only [hprev] at h
      cases hrem : remove_line g1 cand with
      | none => simp [hrem] at h
      | some g2' =>
        simp only [hrem] at h
        injection h with h
        exact Or.inr ⟨cand, by rw [hrem, h]⟩
  · rw [if_neg hc] at h
    injection h with h
    exact Or.inl h.symm

theorem colorStep2_shape (g1 g2 : GameInstance) (current : Pos) (ct1 : Tile)
    (hs : gridShape g1.dimension g1.board)
    (h : colorStep2 g1 current ct1 = .ok g2) :
    g2.dimension = g1.dimension ∧ g2.dots = g1.dots ∧ gridShape g1.dimension g2.board := by
  rcases colorStep2_okCases g1 g2 current ct1 h with h1 | ⟨q, h1⟩
  · subst h1; exact ⟨rfl, rfl, hs⟩
  · exact remove_line_shape g1 g2 q hs h1

theorem colorStep2_error_cases (g1 : GameInstance) (current : Pos) (ct1 : Tile)
    (e : MoveErr) (h : colorStep2 g1 current ct1 = .error e) :
    e = .noneTypeErr ∨ e = .indexErr := by
  unfold colorStep2 at h
  by_cases hc : truthy ct1.color = true ∧ ct1.is_dot = false
  · rw [if_pos hc] at h
    cases hprev : _previous g1 current with
    | none =>
      simp only [hprev] at h
      injection h with h
      exact Or.inl h.symm
    | some cand =>
      simp only [hprev] at h
      cases hrem : remove_line g1 cand with
      | none =>
        simp only [hrem] at h
        injection h with h
        exact Or.inr h.symm
      | some g2 => simp [hrem] at h
  · rw [if_neg hc] at h
    simp at h

theorem colorStep2_no_indexErr (g1 : GameInstance) (current : Pos) (ct1 : Tile)
    (hs : gridShape g1.dimension g1.board) :
    colorStep2 g1 current ct1 ≠ .error .indexErr := by
  unfold colorStep2
  by_cases hc : truthy ct1.color = true ∧ ct1.is_dot = false
  · rw [if_pos hc]
    cases hprev : _previous g1 current with
    | none => simp
    | some cand =>
      have hib := _previous_inBounds g1 current cand hprev
      obtain ⟨h1, h2, h3, h4⟩ := (inBoundsB_iff _ _).mp hib
      obtain ⟨g', hg', _⟩ := remove_line_some g1 cand ((shapeOk_iff g1).mpr hs)
        (by omega) h2 (by omega) h4
      simp [hg']
  · rw [if_neg hc]
    simp

/-! ## Claim theorems -/

/-- C1: the claim states that when `extendPath` overwrites a colored
non-endpoint cell, truncation begins at `currentPos` itself and the old-path
predecessor keeps its color.  The code instead invokes `remove_line` at the
predecessor: after blue draws `(1,1)→(1,2)→(1,3)` and red draws
`(2,2)→(2,3)` and then onto `(1,3)`, the predecessor `(1,2)` is fully
cleared (it was blue) and the blue dot `(1,1)` is left with a dangling link,
contradicting the claim. -/
theorem c1_truncation_clears_predecessor :
    c1state.1 = none ∧
    getB c1state.2.board (1, 2) = some ⟨false, none, none⟩ ∧
    getB c1state.2.board (1, 1) = some ⟨true, some "blue", some (1, 2)⟩ ∧
    getB c1state.2.board (1, 3) = some ⟨false, some "red", none⟩ := by
  decide

/-- C9: the claim states acyclicity is preserved by every operation, every
successor chain ending within `n² = 25` steps.  After the seven successful
moves of `c9moves` the board contains the successor cycle
`(2,2)→(1,2)→(1,3)→(2,3)→(2,2)`, so following links from `(2,3)` does not
reach a chain end even in 25 steps (`lineEnd` with fuel 26 exhausts). -/
theorem c9_successor_cycle :
    c9state.1 = none ∧
    getB c9state.2.board (2, 2) = some ⟨false, some "b", some (1, 2)⟩ ∧
    getB c9state.2.board (1, 2) = some ⟨false, some "b", some (1, 3)⟩ ∧
    getB c9state.2.board (1, 3) = some ⟨false, some "b", some (2, 3)⟩ ∧
    getB c9state.2.board (2, 3) = some ⟨false, some "b", some (2, 2)⟩ ∧
    lineEnd c9state.2.board (5 * 5 + 1) (2, 3) = none := by
  decide

/-- C2 counterexample: from `vg1` (blue path `(1,1)→(1,2)`), the extension
`(1,2)→(1,3)` succeeds, but truncating from the new cell `(1,3)` does not
restore `vg1`: the predecessor `(1,2)` keeps a successor link to the cleared
cell `(1,3)`. -/
theorem c2_roundtrip_counterexample :
    (color_tile vg1 (1, 2) (1, 3)).1 = none ∧
    remove_line vg2 (1, 3) ≠ some vg1 ∧
    (remove_line vg2 (1, 3)).map (fun g => getB g.board (1, 2)) =
      some (some ⟨false, some "blue", some (1, 3)⟩) ∧
    getB vg1.board (1, 2) = some ⟨false, some "blue", none⟩ := by
  decide

/-- C3 counterexample: on `vg`, `extendPath((0,1),(0,3))` has both positions
in bounds and not adjacent, yet the reported error is `NoActivePathError`
("Previous tile must be part of a line"), not `NotAdjacentError`: the code
checks adjacency last, not second. -/
theorem c3_order_counterexample :
    inBoundsB vg.dimension (0, 1) = true ∧
    inBoundsB vg.dimension (0, 3) = true ∧
    manhattan (0, 1) (0, 3) ≠ 1 ∧
    (color_tile vg (0, 1) (0, 3)).1 = some .notOnLine ∧
    (color_tile vg (0, 1) (0, 3)).1 ≠ some .notAdjacent := by
  decide

/-- C6 counterexample: the empty endpoint list satisfies every hypothesis of
the claim vacuously, yet construction with dimension `5 > 0` fails:
`valid_dots` reduces over an empty sequence with no initial value, a
`TypeError`. -/
theorem c6_empty_list_counterexample :
    0 < 5 ∧ GameInstance.construct 5 ([] : List Dot) = .error .typeError :=
  ⟨by decide, rfl⟩

/-- C7 counterexample: on the fully colored board `g7`, the first-listed
endpoint of color "a" (the dot at `(1,0)`) has no successor, yet `winState`
returns true — the code skips a successor-free endpoint and checks the
color again at its other endpoint, rather than failing at a single
representative.  The reversed listing `g7r` also returns true, so no fixed
choice of one representative per color matches the code. -/
theorem c7_representative_counterexample :
    g7.dots.head? = some ⟨1, 0, "a"⟩ ∧
    getB g7.board (1, 0) = some ⟨true, some "a", none⟩ ∧
    game_won g7 = some true ∧
    game_won g7r = some true := by
  decide

/-- C8 counterexample: the claim states `truncatePath` never fails for any
`originPos`, but the origin `(5,0)` on the 5×5 board `vg` raises
`IndexError` at the initial board fetch. -/
theorem c8_out_of_range_counterexample :
    remove_line vg (5, 0) = none := by
  decide

/-- C8 (amended): `truncatePath` never fails when both origin coordinates
lie in the Python index range `[-n, n)`, and when the origin names an
uncolored, successor-free cell the call leaves the board unchanged. -/
theorem c8_in_range_no_failure (g : GameInstance) (origin : Pos)
    (hs : shapeOk g = true)
    (hx0 : -(g.dimension : Int) ≤ origin.1) (hx1 : origin.1 < (g.dimension : Int))
    (hy0 : -(g.dimension : Int) ≤ origin.2) (hy1 : origin.2 < (g.dimension : Int)) :
    (∃ g', remove_line g origin = some g') ∧
    (∀ c t, pyResolveT g origin = some (c, t) → t.color = none → t.next = none →
      remove_line g origin = some g) := by
  have hgs := (shapeOk_iff g).mp hs
  constructor
  · obtain ⟨g', h, _⟩ := remove_line_some g origin hs hx0 hx1 hy0 hy1
    exact ⟨g', h⟩
  · intro c t hres hcol hnext
    have hgb : getB g.board c = some t := (pyResolveGrid_some_lt _ _ _ _ _ hgs hres).2.2
    unfold remove_line
    simp only [hres]
    by_cases hd : t.is_dot = true
    · rw [if_pos hd]
      have hb1 : modifyB g.board c (fun u => { u with next := none }) = g.board := by
        apply modifyB_id
        intro u hu
        rw [hgb] at hu
        injection hu with hu
        subst hu
        obtain ⟨d0, c0, n0⟩ := t
        simp only [Option.some.injEq] at hnext
        simp [hnext]
      rw [hb1, hnext, removeLoopF_none]
    · rw [if_neg hd]
      have hloop : removeLoopF (coloredCount g.board + 1) g.board (some c) = g.board := by
        show (match getB g.board c with
          | none => g.board
          | some t' =>
            if truthy t'.color && !t'.is_dot then
              removeLoopF (coloredCount g.board) (modifyB g.board c clearTile) t'.next
            else g.board) = g.board
        simp only [hgb, hcol]
        simp [truthy]
      rw [hloop]

/-- C8 witness: instantiating the amended theorem on `vg` at a cell of the
empty region `(0, 1)`. -/
theorem c8_witness :
    (∃ g', remove_line vg (0, 1) = some g') ∧
    (∀ c t, pyResolveT vg (0, 1) = some (c, t) → t.color = none → t.next = none →
      remove_line vg (0, 1) = some vg) := by
  exact c8_in_range_no_failure vg (0, 1) (by decide) (by decide) (by decide)
    (by decide) (by decide)

/-- C10: a `truncatePath` origin with negative coordinates in `[-n, 0)` is
not rejected; it resolves to the wrapped cell `(x mod n, y mod n)` and the
call behaves exactly as if that wrapped origin had been passed. -/
theorem c10_negative_origin_wraps (g : GameInstance) (x y : Int)
    (hs : shapeOk g = true)
    (hx0 : -(g.dimension : Int) ≤ x) (hx1 : x < (g.dimension : Int))
    (hy0 : -(g.dimension : Int) ≤ y) (hy1 : y < (g.dimension : Int))
    (_hneg : x < 0 ∨ y < 0) :
    (∃ g', remove_line g (x, y) = some g') ∧
    remove_line g (x, y) =
      remove_line g (x % (g.dimension : Int), y % (g.dimension : Int)) := by
  have hgs := (shapeOk_iff g).mp hs
  constructor
  · obtain ⟨g', h, _⟩ := remove_line_some g (x, y) hs hx0 hx1 hy0 hy1
    exact ⟨g', h⟩
  · unfold remove_line pyResolveT
    rw [pyResolveGrid_emod g.dimension g.board x y hgs hx0 hx1 hy0 hy1]

/-- C10 witness: the origin `(-1, 2)` on `vg` is accepted and equal to
truncating at the wrapped origin. -/
theorem c10_witness :
    (∃ g', remove_line vg (-1, 2) = some g') ∧
    remove_line vg (-1, 2) =
      remove_line vg ((-1) % (vg.dimension : Int), 2 % (vg.dimension : Int)) := by
  exact c10_negative_origin_wraps vg (-1) 2 (by decide) (by decide) (by decide)
    (by decide) (by decide) (Or.inl (by decide))

/-- C3 (amended): the code checks, in order: bounds, endpoint color
mismatch, previous-has-successor, previous-uncolored, adjacency.  A call
with both positions in bounds, no endpoint mismatch at `currentPos`, a
colored `previousPos` with no successor, and non-adjacent positions reports
`NotAdjacentError`; when an earlier-listed check also fails, that earlier
error is reported instead (see the counterexample). -/
theorem c3_check_order (g : GameInstance) (previous current : Pos)
    (pc cc : Coord) (pt ct : Tile)
    (hp : pyResolveT g previous = some (pc, pt))
    (hc : pyResolveT g current = some (cc, ct))
    (hb1 : inBoundsB g.dimension previous = true)
    (hb2 : inBoundsB g.dimension current = true)
    (hmis : ¬ (ct.is_dot = true ∧ pt.color ≠ ct.color))
    (hnext : pt.next = none)
    (hcol : truthy pt.color = true)
    (hadj : manhattan previous current ≠ 1) :
    color_tile g previous current = (some .notAdjacent, g) := by
  unfold color_tile
  simp only [hp, hc]
  rw [if_neg (by simp [hb1, hb2]), if_neg hmis, if_neg (by simp [hnext]),
    if_neg (by simp [hcol]), if_pos hadj]

/-- C3 witness: on `vg`, drawing from the blue dot `(1,1)` to the distant
blue dot `(3,3)` passes every earlier check and reports `NotAdjacentError`. -/
theorem c3_witness :
    color_tile vg (1, 1) (3, 3) = (some .notAdjacent, vg) := by
  exact c3_check_order vg (1, 1) (3, 3) (1, 1) (3, 3)
    ⟨true, some "blue", none⟩ ⟨true, some "blue", none⟩
    (by decide) (by decide) (by decide) (by decide) (by decide) (by decide)
    (by decide) (by decide)

/-- C4: whenever `extendPath` fails with one of the five precondition
errors — out-of-bounds, endpoint color mismatch, previous-has-successor,
previous-uncolored, non-adjacency — the board is left exactly as it was:
all five checks run before any mutation (the later `SameEndpointLoop` and
`TypeError` escapes are not among them). -/
theorem c4_precondition_errors_leave_board (g : GameInstance) (previous current : Pos)
    (e : MoveErr) (hs : shapeOk g = true)
    (he : (color_tile g previous current).1 = some e)
    (hfive : e = .indexErr ∨ e = .drawOnDot ∨ e = .notLineEnd ∨ e = .notOnLine ∨
      e = .notAdjacent) :
    (color_tile g previous current).2 = g := by
  have hgs := (shapeOk_iff g).mp hs
  unfold color_tile at he ⊢
  cases hp : pyResolveT g previous with
  | none =>
    cases hc : pyResolveT g current with
    | none => simp only [hp, hc]
    | some ccct => simp only [hp, hc]
  | some pcpt =>
    obtain ⟨pc, pt⟩ := pcpt
    cases hc : pyResolveT g current with
    | none => simp only [hp, hc]
    | some ccct =>
      obtain ⟨cc, ct⟩ := ccct
      simp only [hp, hc] at he ⊢
      by_cases h1 : ¬ (inBoundsB g.dimension previous = true ∧
          inBoundsB g.dimension current = true)
      · rw [if_pos h1]
      · rw [if_neg h1] at he ⊢
        by_cases h2 : ct.is_dot = true ∧ pt.color ≠ ct.color
        · rw [if_pos h2]
        · rw [if_neg h2] at he ⊢
          by_cases h3 : pt.next.isSome = true
          · rw [if_pos h3]
          · rw [if_neg h3] at he ⊢
            by_cases h4 : truthy pt.color = false
            · rw [if_pos h4]
            · rw [if_neg h4] at he ⊢
              by_cases h5 : manhattan previous current ≠ 1
              · rw [if_pos h5]
              · rw [if_neg h5] at he ⊢
                cases hstep1 : colorStep1 g previous pt with
                | error e1 => simp only [hstep1]
                | ok g1 =>
                  simp only [hstep1] at he ⊢
                  obtain ⟨hd1, hdots1, hgs1⟩ := colorStep1_shape g g1 previous pt hgs hstep1
                  obtain ⟨hcc1, hcc2, _⟩ :=
                    pyResolveGrid_some_lt g.dimension g.board current cc ct hgs hc
                  obtain ⟨ct1, hct1⟩ := getB_some_of_lt g.dimension g1.board cc hgs1 hcc1 hcc2
                  simp only [hct1] at he ⊢
                  by_cases h6 : ct1.is_dot = true ∧ ct1.next.isSome = true
                  · rw [if_pos h6] at he ⊢
                    injection he with he
                    subst he
                    simp at hfive
                  · rw [if_neg h6] at he ⊢
                    have hgs1' : gridShape g1.dimension g1.board := by
                      rw [hd1]; exact hgs1
                    cases hstep2 : colorStep2 g1 current ct1 with
                    | error e2 =>
                      simp only [hstep2] at he ⊢
                      injection he with he
                      subst he
                      rcases colorStep2_error_cases g1 current ct1 e2 hstep2 with h7 | h7
                      · subst h7; simp at hfive
                      · subst h7
                        exact absurd hstep2 (colorStep2_no_indexErr g1 current ct1 hgs1')
                    | ok g2 =>
                      simp only [hstep2] at he ⊢
                      obtain ⟨hd2, hdots2, hgs2⟩ :=
                        colorStep2_shape g1 g2 current ct1 hgs1' hstep2
                      obtain ⟨hpc1, hpc2, _⟩ :=
                        pyResolveGrid_some_lt g.dimension g.board previous pc pt hgs hp
                      have hgs2' : gridShape g.dimension g2.board := by
                        rw [hd1] at hgs2; exact hgs2
                      obtain ⟨pt2, hpt2⟩ :=
                        getB_some_of_lt g.dimension g2.board pc hgs2' hpc1 hpc2
                      simp only [hpt2] at he
                      simp at he

/-- C4 witness: an out-of-bounds call on `vg` reports `OutOfBounds` and the
state component equals `vg`. -/
theorem c4_witness :
    (color_tile vg (0, 0) (9, 9)).1 = some .indexErr ∧
    (color_tile vg (0, 0) (9, 9)).2 = vg :=
  ⟨by decide,
    c4_precondition_errors_leave_board vg (0, 0) (9, 9) .indexErr (by decide) (by decide)
      (Or.inl rfl)⟩

theorem manhattan_one_ne (P Q : Pos) (h : manhattan P Q = 1) : P ≠ Q := by
  intro hPQ
  subst hPQ
  unfold manhattan at h
  simp at h

theorem canonical_ne (n : Nat) (P Q : Pos) (hbP : inBoundsB n P = true)
    (hbQ : inBoundsB n Q = true) (hne : P ≠ Q) :
    (P.1.toNat, P.2.toNat) ≠ (Q.1.toNat, Q.2.toNat) := by
  obtain ⟨hp1, _, hp2, _⟩ := (inBoundsB_iff n P).mp hbP
  obtain ⟨hq1, _, hq2, _⟩ := (inBoundsB_iff n Q).mp hbQ
  intro h
  obtain ⟨h1, h2⟩ := Prod.mk.injEq _ _ _ _ ▸ h
  exact hne (Prod.ext_iff.mpr ⟨by omega, by omega⟩)

theorem colorStep1_dot (g : GameInstance) (previous : Pos) (col : Option Color)
    (d : Dot) (g1 : GameInstance)
    (hod : otherDot g.dots previous col = some d)
    (hrem : remove_line g (d.x, d.y) = some g1) :
    colorStep1 g previous ⟨true, col, none⟩ = .ok g1 := by
  unfold colorStep1
  rw [if_pos rfl]
  show (match otherDot g.dots previous col with
    | none => Except.error MoveErr.noneTypeErr
    | some d0 =>
      match remove_line g (d0.x, d0.y) with
      | none => Except.error MoveErr.indexErr
      | some g2 => Except.ok g2) = Except.ok g1
  simp only [hod, hrem]

/-- C5: drawing from a free endpoint onto its adjacent paired endpoint of
the same color succeeds even when the paired endpoint currently starts the
color's line: the paired line is discarded first (game.py line 131), the
same-endpoint-loop check runs only afterwards (line 133) and sees the
cleared successor, and the call ends with `previousPos`'s successor set to
`currentPos`. -/
theorem c5_adjacent_pair_redraw_succeeds (g : GameInstance) (P Q : Pos) (c : Color)
    (r : Coord) (d : Dot)
    (hs : shapeOk g = true)
    (hbP : inBoundsB g.dimension P = true) (hbQ : inBoundsB g.dimension Q = true)
    (hadj : manhattan P Q = 1)
    (hPt : getB g.board (P.1.toNat, P.2.toNat) = some ⟨true, some c, none⟩)
    (hQt : getB g.board (Q.1.toNat, Q.2.toNat) = some ⟨true, some c, some r⟩)
    (hc : c ≠ "")
    (hod : otherDot g.dots P (some c) = some d)
    (hdx : d.x = Q.1) (hdy : d.y = Q.2) :
    (color_tile g P Q).1 = none ∧
    getB (color_tile g P Q).2.board (P.1.toNat, P.2.toNat) =
      some ⟨true, some c, some (Q.1.toNat, Q.2.toNat)⟩ := by
  have hgs := (shapeOk_iff g).mp hs
  have hPcQc : (P.1.toNat, P.2.toNat) ≠ (Q.1.toNat, Q.2.toNat) :=
    canonical_ne g.dimension P Q hbP hbQ (manhattan_one_ne P Q hadj)
  obtain ⟨pt0, hpres, hpget⟩ := pyResolveGrid_inBounds g.dimension g.board P hgs hbP
  obtain ⟨qt0, hqres, hqget⟩ := pyResolveGrid_inBounds g.dimension g.board Q hgs hbQ
  rw [hpget] at hPt
  injection hPt with hPt0
  subst hPt0
  rw [hqget] at hQt
  injection hQt with hQt0
  subst hQt0
  -- the board after unlinking the paired dot, and the state after removal
  set b1 : Grid :=
    modifyB g.board (Q.1.toNat, Q.2.toNat) (fun u => { u with next := none }) with hb1def
  set g1 : GameInstance :=
    { g with board := removeLoopF (coloredCount b1 + 1) b1 (some r) } with hg1def
  have hb1get : getB b1 (Q.1.toNat, Q.2.toNat) = some ⟨true, some c, none⟩ := by
    rw [hb1def, getB_modifyB, if_pos rfl, hqget]
    rfl
  have hb1getP : getB b1 (P.1.toNat, P.2.toNat) = some ⟨true, some c, none⟩ := by
    rw [hb1def, getB_modifyB, if_neg hPcQc, hpget]
  have hrem : remove_line g (d.x, d.y) = some g1 := by
    rw [hdx, hdy]
    show remove_line g Q = _
    unfold remove_line pyResolveT
    simp only [hqres]
    rw [if_pos trivial]
  have hstep1 := colorStep1_dot g P (some c) d g1 hod hrem
  have hQfact : getB g1.board (Q.1.toNat, Q.2.toNat) = some ⟨true, some c, none⟩ :=
    removeLoopF_keeps _ _ _ _ _ hb1get (Or.inl rfl)
  have hPfact : getB g1.board (P.1.toNat, P.2.toNat) = some ⟨true, some c, none⟩ :=
    removeLoopF_keeps _ _ _ _ _ hb1getP (Or.inl rfl)
  have hstep2 : colorStep2 g1 Q (⟨true, some c, none⟩ : Tile) = .ok g1 := by
    unfold colorStep2
    rw [if_neg (by simp)]
  unfold color_tile pyResolveT
  simp only [hpres, hqres]
  rw [if_neg (by simp [hbP, hbQ])]
  rw [if_neg (by simp)]
  rw [if_neg (by simp)]
  rw [if_neg (by simp [truthy, hc])]
  rw [if_neg (by simp [hadj])]
  simp only [hstep1, hQfact]
  rw [if_neg (by simp)]
  simp only [hstep2, hPfact]
  refine ⟨by trivial, ?_⟩
  show getB (modifyB (modifyB _ (P.1.toNat, P.2.toNat)
      (fun u => { u with next := some (Q.1.toNat, Q.2.toNat) }))
      (Q.1.toNat, Q.2.toNat) (fun u => { u with color := some c })) _ = _
  rw [getB_modifyB, if_neg hPcQc, getB_modifyB, if_pos rfl, hPfact]
  rfl

/-- C5 witness: on the 3×3 board `vg5b` (same-color dots at `(0,0)` and
`(0,1)`, a line already drawn from `(0,1)`), drawing `(0,0)→(0,1)` succeeds
and sets `(0,0)`'s successor to `(0,1)`. -/
theorem c5_witness :
    (color_tile vg5b (0, 0) (0, 1)).1 = none ∧
    getB (color_tile vg5b (0, 0) (0, 1)).2.board
      (((0 : Int), (0 : Int)).1.toNat, ((0 : Int), (0 : Int)).2.toNat) =
      some ⟨true, some "a", some (((0 : Int), (1 : Int)).1.toNat,
        ((0 : Int), (1 : Int)).2.toNat)⟩ := by
  exact c5_adjacent_pair_redraw_succeeds vg5b (0, 0) (0, 1) "a" (0, 2) ⟨0, 1, "a"⟩
    (by decide) (by decide) (by decide) (by decide) (by decide) (by decide)
    (by decide) (by decide) (by decide) (by decide)

theorem removeLoopF_step (fuel : Nat) (b : Grid) (p : Coord) (t : Tile)
    (ht : getB b p = some t) (hc : (truthy t.color && !t.is_dot) = true) :
    removeLoopF (fuel + 1) b (some p) = removeLoopF fuel (modifyB b p clearTile) t.next := by
  show (match getB b p with
    | none => b
    | some t0 =>
      if truthy t0.color && !t0.is_dot then
        removeLoopF fuel (modifyB b p clearTile) t0.next
      else b) = _
  simp only [ht]
  rw [if_pos hc]

theorem remove_line_nondot (g2 : GameInstance) (current : Pos) (cc : Coord) (t : Tile)
    (hres : pyResolveT g2 current = some (cc, t))
    (hget : getB g2.board cc = some t)
    (hdot : t.is_dot = false)
    (hc : (truthy t.color && !t.is_dot) = true)
    (hnext : t.next = none) :
    remove_line g2 current = some { g2 with board := modifyB g2.board cc clearTile } := by
  unfold remove_line
  simp only [hres]
  rw [if_neg (by simp [hdot])]
  rw [removeLoopF_step (coloredCount g2.board) g2.board cc t hget hc]
  rw [hnext, removeLoopF_none]

/-- C2 (amended): when a successful `extendPath(prev, cur)` performs no
internal truncation work (`prev` not an endpoint, `cur` an uncolored
non-endpoint cell with no successor), immediately calling
`truncatePath(cur)` restores every cell to its pre-extension value *except*
`prev`'s cell, which keeps its color and endpoint flag but retains the new
successor link to `cur`; the full pre-extension state is not restored. -/
theorem c2_roundtrip_up_to_dangling_link (g : GameInstance) (previous current : Pos)
    (c0 : Option Color)
    (hs : shapeOk g = true)
    (hbP : inBoundsB g.dimension previous = true)
    (hbC : inBoundsB g.dimension current = true)
    (hadj : manhattan previous current = 1)
    (hPt : getB g.board (previous.1.toNat, previous.2.toNat) = some ⟨false, c0, none⟩)
    (hcol : truthy c0 = true)
    (hCt : getB g.board (current.1.toNat, current.2.toNat) = some ⟨false, none, none⟩) :
    (color_tile g previous current).1 = none ∧
    remove_line (color_tile g previous current).2 current =
      some (modifyG g (previous.1.toNat, previous.2.toNat)
        (fun u => { u with next := some (current.1.toNat, current.2.toNat) })) := by
  have hgs := (shapeOk_iff g).mp hs
  have hPcCc : (previous.1.toNat, previous.2.toNat) ≠ (current.1.toNat, current.2.toNat) :=
    canonical_ne g.dimension previous current hbP hbC (manhattan_one_ne previous current hadj)
  obtain ⟨pt0, hpres, hpget⟩ := pyResolveGrid_inBounds g.dimension g.board previous hgs hbP
  obtain ⟨ct0, hcres, hcget⟩ := pyResolveGrid_inBounds g.dimension g.board current hgs hbC
  rw [hpget] at hPt
  injection hPt with hPt0
  subst hPt0
  rw [hcget] at hCt
  injection hCt with hCt0
  subst hCt0
  have hstep1 : colorStep1 g previous (⟨false, c0, none⟩ : Tile) = .ok g := by
    unfold colorStep1
    rw [if_neg (by simp)]
  have hstep2 : colorStep2 g current (⟨false, none, none⟩ : Tile) = .ok g := by
    unfold colorStep2
    rw [if_neg (by simp [truthy])]
  unfold color_tile pyResolveT
  simp only [hpres, hcres]
  rw [if_neg (by simp [hbP, hbC])]
  rw [if_neg (by simp)]
  rw [if_neg (by simp)]
  rw [if_neg (by simp [hcol])]
  rw [if_neg (by simp [hadj])]
  simp only [hstep1, hcget]
  rw [if_neg (by simp)]
  simp only [hstep2, hpget]
  refine ⟨by trivial, ?_⟩
  -- the extended state and its tile at the new cell
  set Pc : Coord := (previous.1.toNat, previous.2.toNat) with hPcdef
  set Cc : Coord := (current.1.toNat, current.2.toNat) with hCcdef
  set fn : Tile → Tile := fun u => { u with next := some Cc } with hfndef
  set bext : Grid := modifyB (modifyB g.board Pc fn) Cc
    (fun u => { u with color := (⟨false, c0, none⟩ : Tile).color }) with hbext
  have hCcPc : Cc ≠ Pc := fun h => hPcCc h.symm
  have hbextC : getB bext Cc = some ⟨false, c0, none⟩ := by
    rw [hbext, getB_modifyB, if_pos rfl, getB_modifyB, if_neg hCcPc, hcget]
    rfl
  have hsext : gridShape g.dimension bext := by
    rw [hbext]
    exact gridShape_modifyB _ _ _ _ (gridShape_modifyB _ _ _ _ hgs)
  obtain ⟨text, hresext, hgetext⟩ :=
    pyResolveGrid_inBounds g.dimension bext current hsext hbC
  rw [hbextC] at hgetext
  injection hgetext with htext
  subst htext
  have hclear : modifyB bext Cc clearTile = modifyB g.board Pc fn := by
    rw [hbext, modifyB_modifyB_self]
    apply modifyB_id
    intro t ht
    rw [getB_modifyB, if_neg hCcPc, hcget] at ht
    injection ht with ht
    subst ht
    rfl
  have hrm := remove_line_nondot
    (modifyG (modifyG g Pc fn) Cc (fun u => { u with color := c0 })) current Cc
    (⟨false, c0, none⟩ : Tile) hresext hbextC rfl (by simp [hcol]) rfl
  refine Eq.trans hrm ?_
  exact congrArg (fun bb => some (GameInstance.mk g.dimension bb g.dots)) hclear

/-- C2 witness: instantiating the amended round-trip on `vg1` with the
extension `(1,2)→(1,3)`. -/
theorem c2_witness :
    (color_tile vg1 (1, 2) (1, 3)).1 = none ∧
    remove_line (color_tile vg1 (1, 2) (1, 3)).2 (1, 3) =
      some (modifyG vg1 (((1 : Int), (2 : Int)).1.toNat, ((1 : Int), (2 : Int)).2.toNat)
        (fun u => { u with
          next := some (((1 : Int), (3 : Int)).1.toNat, ((1 : Int), (3 : Int)).2.toNat) })) := by
  exact c2_roundtrip_up_to_dangling_link vg1 (1, 2) (1, 3) (some "blue")
    (by decide) (by decide) (by decide) (by decide) (by decide) (by decide) (by decide)

theorem getB_emptyGrid (n : Nat) (c : Coord) (h1 : c.1 < n) (h2 : c.2 < n) :
    getB (emptyGrid n) c = some Tile.empty := by
  unfold getB emptyGrid
  simp [List.getElem?_replicate, h1, h2]

theorem gridShape_emptyGrid (n : Nat) : gridShape n (emptyGrid n) := by
  unfold gridShape emptyGrid
  constructor
  · simp
  · intro row hrow
    rw [List.eq_of_mem_replicate hrow]
    simp

theorem placeDots_ok (n : Nat) (dots : List Dot) : ∀ (b : Grid),
    gridShape n b →
    (∀ d ∈ dots, 0 ≤ d.x ∧ d.x < (n : Int) ∧ 0 ≤ d.y ∧ d.y < (n : Int)) →
    List.Pairwise (fun a b0 => (a.x, a.y) ≠ (b0.x, b0.y)) dots →
    (∀ d ∈ dots, ∃ t, getB b (d.x.toNat, d.y.toNat) = some t ∧ t.is_dot = false) →
    ∃ b', placeDots b dots = .ok b' ∧ gridShape n b' ∧
      (∀ d ∈ dots, getB b' (d.x.toNat, d.y.toNat) = some (dotTile d)) ∧
      (∀ c : Coord, (∀ d ∈ dots, (d.x.toNat, d.y.toNat) ≠ c) → getB b' c = getB b c) := by
  induction dots with
  | nil =>
    intro b hs _ _ _
    exact ⟨b, rfl, hs, by simp, fun c _ => rfl⟩
  | cons d rest ih =>
    intro b hs hin hpw hfree
    obtain ⟨hx0, hx1, hy0, hy1⟩ := hin d (List.mem_cons_self d rest)
    have hbB : inBoundsB n (d.x, d.y) = true :=
      (inBoundsB_iff n (d.x, d.y)).mpr ⟨hx0, hx1, hy0, hy1⟩
    obtain ⟨t, hres, hget⟩ := pyResolveGrid_inBounds n b (d.x, d.y) hs hbB
    obtain ⟨t0, hget0, hnd⟩ := hfree d (List.mem_cons_self d rest)
    rw [hget] at hget0
    injection hget0 with hEq
    subst hEq
    have hpwc := List.pairwise_cons.mp hpw
    have hne : ∀ d' ∈ rest, (d'.x.toNat, d'.y.toNat) ≠ (d.x.toNat, d.y.toNat) := by
      intro d' hd' hEq
      obtain ⟨hx0', hx1', hy0', hy1'⟩ := hin d' (List.mem_cons_of_mem d hd')
      obtain ⟨h1, h2⟩ := Prod.mk.injEq _ _ _ _ ▸ hEq
      exact hpwc.1 d' hd' (Prod.ext_iff.mpr ⟨by omega, by omega⟩)
    have hs1 : gridShape n (modifyB b (d.x.toNat, d.y.toNat) (fun _ => dotTile d)) :=
      gridShape_modifyB n b _ _ hs
    have hfree1 : ∀ d' ∈ rest, ∃ t',
        getB (modifyB b (d.x.toNat, d.y.toNat) (fun _ => dotTile d))
          (d'.x.toNat, d'.y.toNat) = some t' ∧ t'.is_dot = false := by
      intro d' hd'
      obtain ⟨t', hget', hnd'⟩ := hfree d' (List.mem_cons_of_mem d hd')
      refine ⟨t', ?_, hnd'⟩
      rw [getB_modifyB, if_neg (hne d' hd'), hget']
    obtain ⟨b', hok, hs', hall, hout⟩ := ih
      (modifyB b (d.x.toNat, d.y.toNat) (fun _ => dotTile d)) hs1
      (fun d' hd' => hin d' (List.mem_cons_of_mem d hd')) hpwc.2 hfree1
    refine ⟨b', ?_, hs', ?_, ?_⟩
    · unfold placeDots
      simp only [hres]
      rw [if_neg (by simp [hnd])]
      exact hok
    · intro d' hd'
      rcases List.mem_cons.mp hd' with h | h
      · subst h
        rw [hout _ (fun d2 hd2 => hne d2 hd2)]
        rw [getB_modifyB, if_pos rfl, hget]
        rfl
      · exact hall d' h
    · intro c hc
      rw [hout c (fun d2 hd2 => hc d2 (List.mem_cons_of_mem d hd2))]
      rw [getB_modifyB, if_neg (fun h => hc d (List.mem_cons_self d rest) h.symm)]

theorem addColor_ne_nil (acc : List Color) (c : Color) : addColor acc c ≠ [] := by
  unfold addColor
  split
  · intro h
    subst h
    simp_all
  · simp

theorem foldl_addColor_ne_nil (dots : List Dot) : ∀ acc : List Color, acc ≠ [] →
    dots.foldl (fun acc0 d => addColor acc0 d.color) acc ≠ [] := by
  induction dots with
  | nil => intro acc hacc; exact hacc
  | cons d rest ih =>
    intro acc _
    exact ih (addColor acc d.color) (addColor_ne_nil acc d.color)

theorem distinctColors_ne_nil (dots : List Dot) (hne : dots ≠ []) :
    distinctColors dots ≠ [] := by
  cases dots with
  | nil => exact absurd rfl hne
  | cons d rest =>
    unfold distinctColors
    show rest.foldl (fun acc0 d0 => addColor acc0 d0.color) (addColor [] d.color) ≠ []
    exact foldl_addColor_ne_nil rest _ (addColor_ne_nil [] d.color)

/-- C6 (amended): construction succeeds on every *non-empty* endpoint list
with exactly two endpoints per color, no duplicate positions and all
positions inside `[0, n)²` (with `n > 0`), and each endpoint's cell carries
`isEndpoint = true` and the declared color; the empty list instead crashes
`valid_dots`. -/
theorem c6_valid_construction (n : Nat) (dots : List Dot)
    (_hn : 0 < n) (hne : dots ≠ [])
    (hin : ∀ d ∈ dots, 0 ≤ d.x ∧ d.x < (n : Int) ∧ 0 ≤ d.y ∧ d.y < (n : Int))
    (hpw : List.Pairwise (fun a b0 => (a.x, a.y) ≠ (b0.x, b0.y)) dots)
    (hcnt : ∀ c ∈ distinctColors dots, countColor dots c = 2) :
    ∃ g, GameInstance.construct n dots = .ok g ∧ g.dimension = n ∧ g.dots = dots ∧
      ∀ d ∈ dots, getB g.board (d.x.toNat, d.y.toNat) =
        some ⟨true, some d.color, none⟩ := by
  have hfree0 : ∀ d ∈ dots, ∃ t, getB (emptyGrid n) (d.x.toNat, d.y.toNat) = some t ∧
      t.is_dot = false := by
    intro d hd
    obtain ⟨hx0, hx1, hy0, hy1⟩ := hin d hd
    exact ⟨Tile.empty, getB_emptyGrid n _ (by omega) (by omega), rfl⟩
  obtain ⟨b', hok, _, hall, _⟩ :=
    placeDots_ok n dots (emptyGrid n) (gridShape_emptyGrid n) hin hpw hfree0
  have hvd : valid_dots dots = .ok true := by
    unfold valid_dots
    cases hdc : distinctColors dots with
    | nil => exact absurd hdc (distinctColors_ne_nil dots hne)
    | cons c cs =>
      have : ∀ x ∈ c :: cs, (countColor dots x == 2) = true := by
        intro x hx
        rw [beq_iff_eq]
        exact hcnt x (by rw [hdc]; exact hx)
      simp only [List.all_eq_true.mpr this]
  refine ⟨⟨n, b', dots⟩, ?_, rfl, rfl, hall⟩
  unfold GameInstance.construct
  simp only [hok, hvd]

/-- C6 witness: the test suite's dot layout builds successfully with every
dot cell marked and colored as declared. -/
theorem c6_witness :
    ∃ g, GameInstance.construct 5 vdots = .ok g ∧ g.dimension = 5 ∧ g.dots = vdots ∧
      ∀ d ∈ vdots, getB g.board (d.x.toNat, d.y.toNat) =
        some ⟨true, some d.color, none⟩ := by
  exact c6_valid_construction 5 vdots (by decide) (by decide) (by decide) (by decide)
    (by decide)

theorem wonLoop_true (g : GameInstance) (dots : List Dot) :
    ∀ colors : List Color, wonLoop g dots colors = some true →
    ∀ c ∈ colors, ∃ d ∈ dots, d.color = c ∧
      ∃ cc t, pyResolveT g (d.x, d.y) = some (cc, t) ∧ t.next.isSome = true ∧
        ∃ e et, lineEnd g.board (g.dimension * g.dimension + 1) cc = some e ∧
          getB g.board e = some et ∧ et.is_dot = true := by
  induction dots with
  | nil =>
    intro colors h c hc
    unfold wonLoop at h
    injection h with h
    rw [List.isEmpty_iff] at h
    subst h
    exact absurd hc (List.not_mem_nil c)
  | cons d rest ih =>
    intro colors h c hc
    unfold wonLoop at h
    cases hres : pyResolveT g (d.x, d.y) with
    | none => simp [hres] at h
    | some cct =>
      obtain ⟨cc, t⟩ := cct
      simp only [hres] at h
      by_cases hmem : d.color ∈ colors
      · rw [if_pos hmem] at h
        cases hnext : t.next with
        | none =>
          simp only [hnext] at h
          obtain ⟨d', hd', hrest⟩ := ih colors h c hc
          exact ⟨d', List.mem_cons_of_mem d hd', hrest⟩
        | some q =>
          simp only [hnext] at h
          cases hle : lineEnd g.board (g.dimension * g.dimension + 1) cc with
          | none => simp [hle] at h
          | some e =>
            simp only [hle] at h
            cases het : getB g.board e with
            | none => simp [het] at h
            | some et =>
              simp only [het] at h
              by_cases hdot : et.is_dot = true
              · rw [if_pos hdot] at h
                by_cases hcd : c = d.color
                · subst hcd
                  exact ⟨d, List.mem_cons_self d rest, rfl, cc, t, hres,
                    by rw [hnext]; rfl, e, et, hle, het, hdot⟩
                · have hc' : c ∈ colors.erase d.color :=
                    (List.mem_erase_of_ne hcd).mpr hc
                  obtain ⟨d', hd', hrest⟩ := ih (colors.erase d.color) h c hc'
                  exact ⟨d', List.mem_cons_of_mem d hd', hrest⟩
              · rw [if_neg hdot] at h
                injection h with h
                exact absurd h (by decide)
      · rw [if_neg hmem] at h
        obtain ⟨d', hd', hrest⟩ := ih colors h c hc
        exact ⟨d', List.mem_cons_of_mem d hd', hrest⟩

/-- C7 (amended): `winState` returns true only if every cell is colored and
every color of the endpoint list has at least one endpoint whose successor
chain terminates at an endpoint cell.  The code scans the endpoint list in
order, skipping an endpoint with no successor rather than failing on it, so
one color may be examined through both of its endpoints (see the
counterexample for the behavior the original claim rules out). -/
theorem c7_game_won_characterization (g : GameInstance)
    (h : game_won g = some true) :
    allColored g.board = true ∧
    ∀ c ∈ distinctColors g.dots, ∃ d ∈ g.dots, d.color = c ∧
      ∃ cc t, pyResolveT g (d.x, d.y) = some (cc, t) ∧ t.next.isSome = true ∧
        ∃ e et, lineEnd g.board (g.dimension * g.dimension + 1) cc = some e ∧
          getB g.board e = some et ∧ et.is_dot = true := by
  unfold game_won at h
  by_cases hac : allColored g.board = true
  · rw [if_pos hac] at h
    exact ⟨hac, wonLoop_true g g.dots (distinctColors g.dots) h⟩
  · rw [if_neg hac] at h
    injection h with h
    exact absurd h (by decide)

/-- C7 witness: the amended characterization instantiated on the won board
`g7`. -/
theorem c7_witness :
    allColored g7.board = true ∧
    ∀ c ∈ distinctColors g7.dots, ∃ d ∈ g7.dots, d.color = c ∧
      ∃ cc t, pyResolveT g7 (d.x, d.y) = some (cc, t) ∧ t.next.isSome = true ∧
        ∃ e et, lineEnd g7.board (g7.dimension * g7.dimension + 1) cc = some e ∧
          getB g7.board e = some et ∧ et.is_dot = true := by
  exact c7_game_won_characterization g7 (by decide)

end FlowFree
